import Mathlib

/-!
Shallow embedding of the AES implementation in src/main.rs (aes-rust).
Bytes are modelled as Nat with explicit reductions modulo 256 where the
Rust u8 arithmetic truncates; Rust panics are modelled as Option.none.
The sbox module (mod sbox) is not part of the provided sources, so its two
tables are modelled from the spec as the standard AES S-boxes.
-/

namespace AES

/-- Block size in words (static NB in the source). -/
def NB : Nat := 4

/-- Round constants (static R_CON in the source). -/
def R_CON : List Nat :=
  [0x01, 0x02, 0x04, 0x08, 0x10, 0x20, 0x40, 0x80, 0x1b, 0x36]

/-- Modelled from the spec: the forward S-box table of module sbox (file
sbox.rs is absent from the sources; the spec describes the tables as the
fixed precomputed forward byte-substitution permutation of AES/Rijndael). -/
def SBOX : List Nat :=
  [0x63, 0x7c, 0x77, 0x7b, 0xf2, 0x6b, 0x6f, 0xc5, 0x30, 0x01, 0x67, 0x2b, 0xfe, 0xd7, 0xab, 0x76,
   0xca, 0x82, 0xc9, 0x7d, 0xfa, 0x59, 0x47, 0xf0, 0xad, 0xd4, 0xa2, 0xaf, 0x9c, 0xa4, 0x72, 0xc0,
   0xb7, 0xfd, 0x93, 0x26, 0x36, 0x3f, 0xf7, 0xcc, 0x34, 0xa5, 0xe5, 0xf1, 0x71, 0xd8, 0x31, 0x15,
   0x04, 0xc7, 0x23, 0xc3, 0x18, 0x96, 0x05, 0x9a, 0x07, 0x12, 0x80, 0xe2, 0xeb, 0x27, 0xb2, 0x75,
   0x09, 0x83, 0x2c, 0x1a, 0x1b, 0x6e, 0x5a, 0xa0, 0x52, 0x3b, 0xd6, 0xb3, 0x29, 0xe3, 0x2f, 0x84,
   0x53, 0xd1, 0x00, 0xed, 0x20, 0xfc, 0xb1, 0x5b, 0x6a, 0xcb, 0xbe, 0x39, 0x4a, 0x4c, 0x58, 0xcf,
   0xd0, 0xef, 0xaa, 0xfb, 0x43, 0x4d, 0x33, 0x85, 0x45, 0xf9, 0x02, 0x7f, 0x50, 0x3c, 0x9f, 0xa8,
   0x51, 0xa3, 0x40, 0x8f, 0x92, 0x9d, 0x38, 0xf5, 0xbc, 0xb6, 0xda, 0x21, 0x10, 0xff, 0xf3, 0xd2,
   0xcd, 0x0c, 0x13, 0xec, 0x5f, 0x97, 0x44, 0x17, 0xc4, 0xa7, 0x7e, 0x3d, 0x64, 0x5d, 0x19, 0x73,
   0x60, 0x81, 0x4f, 0xdc, 0x22, 0x2a, 0x90, 0x88, 0x46, 0xee, 0xb8, 0x14, 0xde, 0x5e, 0x0b, 0xdb,
   0xe0, 0x32, 0x3a, 0x0a, 0x49, 0x06, 0x24, 0x5c, 0xc2, 0xd3, 0xac, 0x62, 0x91, 0x95, 0xe4, 0x79,
   0xe7, 0xc8, 0x37, 0x6d, 0x8d, 0xd5, 0x4e, 0xa9, 0x6c, 0x56, 0xf4, 0xea, 0x65, 0x7a, 0xae, 0x08,
   0xba, 0x78, 0x25, 0x2e, 0x1c, 0xa6, 0xb4, 0xc6, 0xe8, 0xdd, 0x74, 0x1f, 0x4b, 0xbd, 0x8b, 0x8a,
   0x70, 0x3e, 0xb5, 0x66, 0x48, 0x03, 0xf6, 0x0e, 0x61, 0x35, 0x57, 0xb9, 0x86, 0xc1, 0x1d, 0x9e,
   0xe1, 0xf8, 0x98, 0x11, 0x69, 0xd9, 0x8e, 0x94, 0x9b, 0x1e, 0x87, 0xe9, 0xce, 0x55, 0x28, 0xdf,
   0x8c, 0xa1, 0x89, 0x0d, 0xbf, 0xe6, 0x42, 0x68, 0x41, 0x99, 0x2d, 0x0f, 0xb0, 0x54, 0xbb, 0x16]

/-- Modelled from the spec: the inverse S-box table of module sbox (file
sbox.rs is absent from the sources; the spec describes the inverse table as
the permutation inverse of the forward one). -/
def INV_SBOX : List Nat :=
  [0x52, 0x09, 0x6a, 0xd5, 0x30, 0x36, 0xa5, 0x38, 0xbf, 0x40, 0xa3, 0x9e, 0x81, 0xf3, 0xd7, 0xfb,
   0x7c, 0xe3, 0x39, 0x82, 0x9b, 0x2f, 0xff, 0x87, 0x34, 0x8e, 0x43, 0x44, 0xc4, 0xde, 0xe9, 0xcb,
   0x54, 0x7b, 0x94, 0x32, 0xa6, 0xc2, 0x23, 0x3d, 0xee, 0x4c, 0x95, 0x0b, 0x42, 0xfa, 0xc3, 0x4e,
   0x08, 0x2e, 0xa1, 0x66, 0x28, 0xd9, 0x24, 0xb2, 0x76, 0x5b, 0xa2, 0x49, 0x6d, 0x8b, 0xd1, 0x25,
   0x72, 0xf8, 0xf6, 0x64, 0x86, 0x68, 0x98, 0x16, 0xd4, 0xa4, 0x5c, 0xcc, 0x5d, 0x65, 0xb6, 0x92,
   0x6c, 0x70, 0x48, 0x50, 0xfd, 0xed, 0xb9, 0xda, 0x5e, 0x15, 0x46, 0x57, 0xa7, 0x8d, 0x9d, 0x84,
   0x90, 0xd8, 0xab, 0x00, 0x8c, 0xbc, 0xd3, 0x0a, 0xf7, 0xe4, 0x58, 0x05, 0xb8, 0xb3, 0x45, 0x06,
   0xd0, 0x2c, 0x1e, 0x8f, 0xca, 0x3f, 0x0f, 0x02, 0xc1, 0xaf, 0xbd, 0x03, 0x01, 0x13, 0x8a, 0x6b,
   0x3a, 0x91, 0x11, 0x41, 0x4f, 0x67, 0xdc, 0xea, 0x97, 0xf2, 0xcf, 0xce, 0xf0, 0xb4, 0xe6, 0x73,
   0x96, 0xac, 0x74, 0x22, 0xe7, 0xad, 0x35, 0x85, 0xe2, 0xf9, 0x37, 0xe8, 0x1c, 0x75, 0xdf, 0x6e,
   0x47, 0xf1, 0x1a, 0x71, 0x1d, 0x29, 0xc5, 0x89, 0x6f, 0xb7, 0x62, 0x0e, 0xaa, 0x18, 0xbe, 0x1b,
   0xfc, 0x56, 0x3e, 0x4b, 0xc6, 0xd2, 0x79, 0x20, 0x9a, 0xdb, 0xc0, 0xfe, 0x78, 0xcd, 0x5a, 0xf4,
   0x1f, 0xdd, 0xa8, 0x33, 0x88, 0x07, 0xc7, 0x31, 0xb1, 0x12, 0x10, 0x59, 0x27, 0x80, 0xec, 0x5f,
   0x60, 0x51, 0x7f, 0xa9, 0x19, 0xb5, 0x4a, 0x0d, 0x2d, 0xe5, 0x7a, 0x9f, 0x93, 0xc9, 0x9c, 0xef,
   0xa0, 0xe0, 0x3b, 0x4d, 0xae, 0x2a, 0xf5, 0xb0, 0xc8, 0xeb, 0xbb, 0x3c, 0x83, 0x53, 0x99, 0x61,
   0x17, 0x2b, 0x04, 0x7e, 0xba, 0x77, 0xd6, 0x26, 0xe1, 0x69, 0x14, 0x63, 0x55, 0x21, 0x0c, 0x7d]

/-- Function gf_double of the source: u8 left shift by one (the vacated high
bit is discarded, hence the mod 256), then conditional xor with 0x1b. -/
def gf_double (a : Nat) : Nat :=
  let h := (a >>> 7) &&& 1
  let b := (a <<< 1) % 256
  let b := b ^^^ (h * 0x1b)
  b &&& 0xff

/-- Function gf_mult of the source, with explicit fuel: the Rust recursion
has base case b == 1 and recurses on gf_mult(gf_double(a), (b - b % 2) / 2)
xor (b % 2) * a; when b = 0 the recursive argument is again 0, so the
recursion never terminates, which the fuel models as none. -/
def gf_multF : Nat → Nat → Nat → Option Nat
  | 0, _, _ => none
  | fuel + 1, a, b =>
    if b = 1 then some a
    else
      let c := b % 2
      match gf_multF fuel (gf_double a) ((b - c) / 2) with
      | none => none
      | some r => some (r ^^^ (c * a))

/-- Total wrapper for gf_mult: fuel b suffices whenever b is at least 1
(the argument at least halves each step), which covers the single call site
in the source, inv_mix_column with b = 4. -/
def gf_mult (a b : Nat) : Nat := (gf_multF b a b).getD 0

/-- Struct Word of the source: a 4-byte sequence. -/
structure Word where
  bytes : List Nat
deriving DecidableEq, Repr

/-- Word value whose bytes are all zero (Word with bytes [0; 4]). -/
def zeroWord : Word := ⟨[0, 0, 0, 0]⟩

/-- BitXor/BitXorAssign on Word: byte-wise xor of the 4 bytes. -/
def wxor (a b : Word) : Word :=
  ⟨List.zipWith (fun x y => x ^^^ y) a.bytes b.bytes⟩

/-- Word::rot_word: bytes.rotate_left(1). -/
def Word.rot_word (w : Word) : Word := ⟨w.bytes.rotate 1⟩

/-- Word::sub_word: replace each byte through SBOX. -/
def Word.sub_word (w : Word) : Word :=
  ⟨w.bytes.map (fun x => SBOX.getD x 0)⟩

/-- Word::inv_sub_word: replace each byte through INV_SBOX. -/
def Word.inv_sub_word (w : Word) : Word :=
  ⟨w.bytes.map (fun x => INV_SBOX.getD x 0)⟩

/-- Word::mix_column of the source. The four assignments run in order and
each later line reads the already updated earlier bytes (the source mutates
self.bytes in place with no temporary copy), which the sequential lets
reproduce exactly. -/
def Word.mix_column (w : Word) : Word :=
  let b0 := w.bytes.getD 0 0
  let b1 := w.bytes.getD 1 0
  let b2 := w.bytes.getD 2 0
  let b3 := w.bytes.getD 3 0
  let a0 := gf_double b0 ^^^ b3 ^^^ b2 ^^^ gf_double b1 ^^^ b1
  let a1 := gf_double b1 ^^^ a0 ^^^ b3 ^^^ gf_double b2 ^^^ b2
  let a2 := gf_double b2 ^^^ a1 ^^^ a0 ^^^ gf_double b3 ^^^ b3
  let a3 := gf_double b3 ^^^ a2 ^^^ a1 ^^^ gf_double a0 ^^^ a0
  ⟨[a0, a1, a2, a3]⟩

/-- Word::inv_mix_column of the source: fold in the two gf_mult(_, 4)
terms, then apply mix_column. -/
def Word.inv_mix_column (w : Word) : Word :=
  let b0 := w.bytes.getD 0 0
  let b1 := w.bytes.getD 1 0
  let b2 := w.bytes.getD 2 0
  let b3 := w.bytes.getD 3 0
  let u := gf_mult (b0 ^^^ b2) 4
  let v := gf_mult (b1 ^^^ b3) 4
  Word.mix_column ⟨[b0 ^^^ u, b1 ^^^ v, b2 ^^^ u, b3 ^^^ v]⟩

/-- Struct Block of the source: 4 Words (16 bytes). -/
structure Block where
  words : List Word
deriving DecidableEq, Repr

/-- Block::new([0; 16]): the all-zero block. -/
def zeroBlock : Block := ⟨[zeroWord, zeroWord, zeroWord, zeroWord]⟩

/-- Block::new: words[i / 4].bytes[i % 4] = bytes[i] for i in 0..16. -/
def Block.new (bytes : List Nat) : Block :=
  ⟨(List.range 4).map (fun j =>
    (⟨(List.range 4).map (fun k => bytes.getD (4 * j + k) 0)⟩ : Word))⟩

/-- Block::as_bytes: bytes[i] = words[i / 4].bytes[i % 4] for i in 0..16. -/
def Block.as_bytes (b : Block) : List Nat :=
  (List.range 16).map (fun i => (b.words.getD (i / 4) zeroWord).bytes.getD (i % 4) 0)

/-- BitXor/BitXorAssign on Block: word-wise xor of the 4 words. -/
def Block.bxor (a b : Block) : Block :=
  ⟨List.zipWith wxor a.words b.words⟩

/-- Block::sub_bytes of the source: takes self by value and the for loop
mutates a per-iteration copy of each word, so the method returns unit and
the caller's block is unchanged. -/
def Block.sub_bytes (b : Block) : Unit :=
  let _ := b.words.map Word.sub_word
  ()

/-- Block::inv_sub_bytes of the source: by-value self, mutates copies only. -/
def Block.inv_sub_bytes (b : Block) : Unit :=
  let _ := b.words.map Word.inv_sub_word
  ()

/-- Block::shift_rows of the source: by-value self, mutates copies only. -/
def Block.shift_rows (b : Block) : Unit :=
  let _ := b.words.map (fun w => (⟨w.bytes.rotate 1⟩ : Word))
  ()

/-- Block::inv_shift_rows of the source: by-value self, mutates copies only. -/
def Block.inv_shift_rows (b : Block) : Unit :=
  let _ := b.words.map (fun w => (⟨w.bytes.rotate 3⟩ : Word))
  ()

/-- Block::mix_columns of the source: by-value self, mutates copies only. -/
def Block.mix_columns (b : Block) : Unit :=
  let _ := b.words.map Word.mix_column
  ()

/-- Block::inv_mix_columns of the source: by-value self, mutates copies only. -/
def Block.inv_mix_columns (b : Block) : Unit :=
  let _ := b.words.map Word.inv_mix_column
  ()

/-- Block::add_round_key: the one state transformation taking self by
mutable reference; xors the block's words with the key block's words. -/
def Block.add_round_key (b : Block) (key : Block) : Block :=
  ⟨List.zipWith wxor b.words key.words⟩

/-- Helper for the words-to-blocks loops of bytes_to_blocks and
key_expansion: push a Block::new([0; 16]) every 4 words and assign
blocks[i / 4].words[i % 4] = words[i]; slots past the end stay zero. -/
def wordsToBlocks (ws : List Word) : List Block :=
  (List.range ((ws.length + 3) / 4)).map (fun j =>
    (⟨(List.range 4).map (fun k => ws.getD (4 * j + k) zeroWord)⟩ : Block))

/-- Padding amount computed by bytes_to_blocks. The source writes
4*NB - (length % 4*NB) where length is bytes.len() as u8; by Rust
precedence % and * associate left, so this is 16 - (length % 4) * 4. -/
def paddingAmount (len : Nat) : Nat :=
  4 * NB - (len % 256) % 4 * NB

/-- Padded byte vector built by bytes_to_blocks: the input followed by
paddingAmount copies of the value paddingAmount. -/
def paddedBytes (bytes : List Nat) : List Nat :=
  bytes ++ List.replicate (paddingAmount bytes.length) (paddingAmount bytes.length)

/-- Function bytes_to_blocks of the source: pad, cut into words (integer
division padded.len() / 4 drops up to 3 trailing bytes), group into blocks. -/
def bytes_to_blocks (bytes : List Nat) : List Block :=
  let padded_bytes := paddedBytes bytes
  let words := (List.range (padded_bytes.length / 4)).map (fun i =>
    (⟨[padded_bytes.getD (4 * i) 0, padded_bytes.getD (4 * i + 1) 0,
       padded_bytes.getD (4 * i + 2) 0, padded_bytes.getD (4 * i + 3) 0]⟩ : Word))
  wordsToBlocks words

/-- Function rcon of the source: the round constant word for round j. -/
def rcon (j : Nat) : Word := ⟨[R_CON.getD j 0, 0, 0, 0]⟩

/-- Initial nk words of the key schedule, read from the key bytes. -/
def keyWords (key : List Nat) (nk : Nat) : List Word :=
  (List.range nk).map (fun i =>
    (⟨[key.getD (4 * i) 0, key.getD (4 * i + 1) 0,
       key.getD (4 * i + 2) 0, key.getD (4 * i + 3) 0]⟩ : Word))

/-- One iteration of the key expansion loop at index i: temp is the
previous word, transformed when i % nk = 0 (rotate, substitute, xor round
constant) or when nk > 6 and i % nk = 4 (substitute only), and the new word
w[i - nk] xor temp is pushed. -/
def expandStep (nk : Nat) (w : List Word) (i : Nat) : List Word :=
  let temp := w.getD (i - 1) zeroWord
  let temp :=
    if i % nk = 0 then
      wxor (Word.sub_word (Word.rot_word temp)) (rcon (i / nk - 1))
    else if 6 < nk ∧ i % nk = 4 then
      Word.sub_word temp
    else temp
  w ++ [wxor (w.getD (i - nk) zeroWord) temp]

/-- The full word sequence built by key_expansion: the initial key words
extended by the loop for i in nk..NB*(nr+1). -/
def keyExpansionWords (key : List Nat) (nk nr : Nat) : List Word :=
  (List.range' nk (NB * (nr + 1) - nk)).foldl (expandStep nk) (keyWords key nk)

/-- Function key_expansion of the source: expand the key words and group
them into blocks of 4 words. -/
def key_expansion (key : List Nat) (nk nr : Nat) : List Block :=
  wordsToBlocks (keyExpansionWords key nk nr)

/-- Body of the cipher round loop: the sub_bytes, shift_rows and
mix_columns statements return unit and leave state unchanged (by-value
self); only add_round_key updates the state. -/
def cipherRound (w : List Block) (state : Block) (i : Nat) : Block :=
  let _ := state.sub_bytes
  let _ := state.shift_rows
  let _ := state.mix_columns
  state.add_round_key (w.getD i zeroBlock)

/-- Function cipher of the source: add round key 0, loop rounds
1..n_rounds, then final sub_bytes/shift_rows (unit, no effect) and add
round key n_rounds. -/
def cipher (inblock : Block) (n_rounds : Nat) (w : List Block) : Block :=
  let state := inblock.add_round_key (w.getD 0 zeroBlock)
  let state := (List.range' 1 (n_rounds - 1)).foldl (cipherRound w) state
  let _ := state.sub_bytes
  let _ := state.shift_rows
  state.add_round_key (w.getD n_rounds zeroBlock)

/-- Body of the inverse cipher round loop: only add_round_key updates the
state; the other statements return unit (by-value self). -/
def invCipherRound (w : List Block) (state : Block) (i : Nat) : Block :=
  let _ := state.inv_shift_rows
  let _ := state.inv_sub_bytes
  let state := state.add_round_key (w.getD i zeroBlock)
  let _ := state.inv_mix_columns
  state

/-- Function inv_cipher of the source: add round key n_rounds, loop i over
(1..n_rounds).rev(), then final inverse steps (unit, no effect) and add
round key 0. -/
def inv_cipher (inblock : Block) (n_rounds : Nat) (w : List Block) : Block :=
  let state := inblock.add_round_key (w.getD n_rounds zeroBlock)
  let state := ((List.range' 1 (n_rounds - 1)).reverse).foldl (invCipherRound w) state
  let _ := state.inv_shift_rows
  let _ := state.inv_sub_bytes
  state.add_round_key (w.getD 0 zeroBlock)

/-- Function determine_key_length of the source; the panic on any other
length is modelled as none. -/
def determine_key_length (key : List Nat) : Option (Nat × Nat) :=
  match key.length with
  | 16 => some (4, 10)
  | 24 => some (6, 12)
  | 32 => some (8, 14)
  | _ => none

/-- Function aes of the source: determine (nk, nr), expand the key, run the
forward cipher. -/
def aes (inblock : Block) (key : List Nat) : Option Block := do
  let (nk, nr) ← determine_key_length key
  pure (cipher inblock nr (key_expansion key nk nr))

/-- Function inv_aes of the source. -/
def inv_aes (inblock : Block) (key : List Nat) : Option Block := do
  let (nk, nr) ← determine_key_length key
  pure (inv_cipher inblock nr (key_expansion key nk nr))

/-- Function encrypt of the source: CBC chaining over the padded blocks,
chain initialised to the IV block, output the concatenated cipher bytes. -/
def encrypt (bytes key iv : List Nat) : Option (List Nat) := do
  let blocks := bytes_to_blocks bytes
  let r ← blocks.foldlM
    (fun (acc : List Nat × Block) block => do
      let c ← aes (Block.bxor block acc.2) key
      pure (acc.1 ++ c.as_bytes, c))
    (([] : List Nat), Block.new iv)
  pure r.1

/-- The plain byte vector decrypt accumulates before removing padding:
for each block, emit inv_aes(block) xor chain and set chain to the block. -/
def decryptCore (bytes key iv : List Nat) : Option (List Nat) := do
  let blocks := bytes_to_blocks bytes
  let r ← blocks.foldlM
    (fun (acc : List Nat × Block) block => do
      let p ← inv_aes block key
      pure (acc.1 ++ (Block.bxor p acc.2).as_bytes, block))
    (([] : List Nat), Block.new iv)
  pure r.1

/-- Function decrypt of the source: decrypt the blocks, read the last byte
as the padding count, truncate that many bytes. The index plain[len - 1]
on an empty vector and the usize subtraction plain.len() - padding when
padding exceeds the length are panics, modelled as none. -/
def decrypt (bytes key iv : List Nat) : Option (List Nat) := do
  let plain ← decryptCore bytes key iv
  if plain.length = 0 then none
  else
    let padding := plain.getD (plain.length - 1) 0
    if plain.length < padding then none
    else pure (plain.take (plain.length - padding))

/-- Concrete 5-byte plaintext hello, the spec's concrete scenario. -/
def helloP : List Nat := [104, 101, 108, 108, 111]

/-- Concrete 16-byte ASCII key 0123456789abcdef, the spec's concrete scenario. -/
def asciiKey : List Nat := [48, 49, 50, 51, 52, 53, 54, 55, 56, 57, 97, 98, 99, 100, 101, 102]

/-- All-zero 16-byte IV, the value the source's main function uses. -/
def zeroIV : List Nat := List.replicate 16 0

/-- The ciphertext encrypt produces for helloP under asciiKey and zeroIV. -/
def cHello : List Nat := [250, 217, 94, 207, 184, 167, 50, 8, 213, 148, 210, 76, 168, 32, 75, 104]

/-- The 32 plain bytes decryptCore produces for cHello under asciiKey and
zeroIV (two blocks: the recovered padded-then-cut plaintext block, and the
garbage block coming from decrypt re-padding its own input). -/
def plainHello : List Nat :=
  [104, 101, 108, 108, 111, 12, 12, 12, 12, 12, 12, 12, 12, 12, 12, 12,
   120, 117, 124, 124, 127, 28, 28, 28, 28, 28, 28, 28, 28, 28, 28, 28]

/-- The single-block plaintext of the FIPS-197 known-answer vectors. -/
def fipsPT : List Nat :=
  [0x00, 0x11, 0x22, 0x33, 0x44, 0x55, 0x66, 0x77, 0x88, 0x99, 0xaa, 0xbb, 0xcc, 0xdd, 0xee, 0xff]

/-- The 128-bit FIPS-197 known-answer key 000102...0f. -/
def fipsKey128 : List Nat :=
  [0x00, 0x01, 0x02, 0x03, 0x04, 0x05, 0x06, 0x07, 0x08, 0x09, 0x0a, 0x0b, 0x0c, 0x0d, 0x0e, 0x0f]

/-- The 192-bit FIPS-197 known-answer key 000102...17. -/
def fipsKey192 : List Nat :=
  [0x00, 0x01, 0x02, 0x03, 0x04, 0x05, 0x06, 0x07, 0x08, 0x09, 0x0a, 0x0b,
   0x0c, 0x0d, 0x0e, 0x0f, 0x10, 0x11, 0x12, 0x13, 0x14, 0x15, 0x16, 0x17]

/-- The 256-bit FIPS-197 known-answer key 000102...1f. -/
def fipsKey256 : List Nat :=
  [0x00, 0x01, 0x02, 0x03, 0x04, 0x05, 0x06, 0x07, 0x08, 0x09, 0x0a, 0x0b, 0x0c, 0x0d, 0x0e, 0x0f,
   0x10, 0x11, 0x12, 0x13, 0x14, 0x15, 0x16, 0x17, 0x18, 0x19, 0x1a, 0x1b, 0x1c, 0x1d, 0x1e, 0x1f]

/-- Xor on Nat is right-commutative. -/
theorem natXor_right_comm (z x y : Nat) : (z ^^^ x) ^^^ y = (z ^^^ y) ^^^ x := by
  rw [Nat.xor_assoc, Nat.xor_assoc, Nat.xor_comm x y]

/-- ZipWith of a right-commutative operation is right-commutative. -/
theorem zipWith_right_comm {α : Type} {f : α → α → α}
    (hf : ∀ z x y, f (f z x) y = f (f z y) x) :
    ∀ z x y : List α, List.zipWith f (List.zipWith f z x) y = List.zipWith f (List.zipWith f z y) x := by
  intro z
  induction z with
  | nil => intro x y; simp
  | cons a z ih =>
    intro x y
    cases x with
    | nil => simp
    | cons b x =>
      cases y with
      | nil => simp
      | cons c y => simp [ih, hf]

/-- Word xor is right-commutative. -/
theorem wxor_right_comm (z x y : Word) : wxor (wxor z x) y = wxor (wxor z y) x :=
  congrArg Word.mk (zipWith_right_comm natXor_right_comm z.bytes x.bytes y.bytes)

/-- Block xor is right-commutative. -/
theorem bxor_right_comm (z x y : Block) : Block.bxor (Block.bxor z x) y = Block.bxor (Block.bxor z y) x :=
  congrArg Block.mk (zipWith_right_comm wxor_right_comm z.words x.words y.words)

/-- Folding block xor over a reversed list gives the same result. -/
theorem foldl_bxor_reverse (l : List Block) (b : Block) :
    l.reverse.foldl Block.bxor b = l.foldl Block.bxor b :=
  (List.reverse_perm l).foldl_eq' (fun x _ y _ z => bxor_right_comm z x y) b

/-- Claim C1: the spec's round-trip property fails on the code. For the
spec's own concrete scenario (plaintext hello, key 0123456789abcdef, zero
IV), decrypt of encrypt returns the 4 bytes hell, not the 5-byte input:
encrypt pads 5 bytes to 17 (wrong padding formula) and drops the 17th when
cutting words, and decrypt re-pads the ciphertext, decrypting an extra
garbage block whose last byte 28 then truncates 28 of the 32 output bytes. -/
theorem C1_roundtrip_fails :
    (encrypt helloP asciiKey zeroIV).bind (fun c => decrypt c asciiKey zeroIV)
      = some [104, 101, 108, 108] ∧
    (encrypt helloP asciiKey zeroIV).bind (fun c => decrypt c asciiKey zeroIV)
      ≠ some helloP := by
  constructor
  · decide
  · decide

/-- Claim C2: the single-block known-answer property fails on the code for
every key size: since sub_bytes, shift_rows and mix_columns take self by
value and mutate only copies, the forward cipher reduces to xoring all the
round keys into the block, and the outputs on the FIPS-197 vectors differ
from the published ciphertexts 69c4e0d8..., dda97ca4..., 8ea2b7ca.... -/
theorem C2_known_answer_fails :
    (aes (Block.new fipsPT) fipsKey128).map Block.as_bytes
      = some [231, 129, 108, 32, 187, 94, 205, 240, 193, 182, 158, 122, 51, 99, 55, 242] ∧
    (aes (Block.new fipsPT) fipsKey128).map Block.as_bytes
      ≠ some [0x69, 0xc4, 0xe0, 0xd8, 0x6a, 0x7b, 0x04, 0x30, 0xd8, 0xcd, 0xb7, 0x80, 0x70, 0xb4, 0xc5, 0x5a] ∧
    (aes (Block.new fipsPT) fipsKey192).map Block.as_bytes
      ≠ some [0xdd, 0xa9, 0x7c, 0xa4, 0x86, 0x4c, 0xdf, 0xe0, 0x6e, 0xaf, 0x70, 0xa0, 0xec, 0x0d, 0x71, 0x91] ∧
    (aes (Block.new fipsPT) fipsKey256).map Block.as_bytes
      ≠ some [0x8e, 0xa2, 0xb7, 0xca, 0x51, 0x67, 0x45, 0xbf, 0xea, 0xfc, 0x49, 0x90, 0x4b, 0x49, 0x60, 0x89] := by
  refine ⟨by decide, by decide, by decide, by decide⟩

/-- Claim C4: the padding formula of the claim (and the spec) fails on the
code. The source computes 4*NB - (length % 4*NB), which by Rust operator
precedence is 16 - (length % 4) * 4, not 16 - length % 16: a 5-byte buffer
gets 12 bytes of value 12 (the claim demands 11 of value 11), and a 4-byte
buffer gets 16 bytes of value 16 (the claim demands 12 of value 12). -/
theorem C4_padding_fails :
    paddedBytes helloP = helloP ++ List.replicate 12 12 ∧
    paddedBytes helloP
      ≠ helloP ++ List.replicate (16 - helloP.length % 16) (16 - helloP.length % 16) ∧
    paddedBytes [1, 2, 3, 4] = [1, 2, 3, 4] ++ List.replicate 16 16 ∧
    paddedBytes [1, 2, 3, 4]
      ≠ [1, 2, 3, 4] ++ List.replicate (16 - 4 % 16) (16 - 4 % 16) := by
  refine ⟨by decide, by decide, by decide, by decide⟩

/-- Claim C5: inv_mix_column is not the inverse of mix_column. The source's
mix_column updates the four bytes in place sequentially, so later lines
read already-updated bytes (the reference C code uses a copy of the
original); on the word [1, 0, 0, 0] the two compositions return
[46, 30, 4, 80] and [10, 22, 40, 8], not the original word. -/
theorem C5_mix_inverse_fails :
    Word.inv_mix_column (Word.mix_column ⟨[1, 0, 0, 0]⟩) = ⟨[46, 30, 4, 80]⟩ ∧
    Word.inv_mix_column (Word.mix_column ⟨[1, 0, 0, 0]⟩) ≠ ⟨[1, 0, 0, 0]⟩ ∧
    Word.mix_column (Word.inv_mix_column ⟨[1, 0, 0, 0]⟩) ≠ ⟨[1, 0, 0, 0]⟩ := by
  refine ⟨by decide, by decide, by decide⟩

/-- Claim C10: the recursion of gf_mult terminates for every b at least 1
(fuel b suffices, since the argument at least halves each step and the
base case is b = 1), and for b = 0 it never reaches the base case: with
any amount of fuel the result is still none. -/
theorem C10_gf_mult_termination :
    (∀ a b : Nat, 1 ≤ b → ∀ fuel : Nat, b ≤ fuel → (gf_multF fuel a b).isSome = true) ∧
    (∀ a fuel : Nat, gf_multF fuel a 0 = none) := by
  constructor
  · intro a b hb fuel hfuel
    induction fuel generalizing a b with
    | zero => omega
    | succ f ih =>
      by_cases h1 : b = 1
      · subst h1; simp [gf_multF]
      · have hrec : (gf_multF f (gf_double a) ((b - b % 2) / 2)).isSome = true := by
          apply ih
          · omega
          · omega
        obtain ⟨r, hr⟩ := Option.isSome_iff_exists.mp hrec
        simp only [gf_multF, if_neg h1]
        rw [hr]
        rfl
  · intro a fuel
    induction fuel generalizing a with
    | zero => rfl
    | succ f ih =>
      simp only [gf_multF, if_neg (by omega : ¬ (0 : Nat) = 1)]
      rw [show ((0 : Nat) - 0 % 2) / 2 = 0 from rfl, ih (gf_double a)]

/-- Witness for C10 at concrete inputs a = 3, b = 4 (and fuel 7 for b = 0). -/
theorem C10_gf_mult_termination_witness :
    (gf_multF 4 3 4).isSome = true ∧ gf_multF 7 5 0 = none :=
  ⟨C10_gf_mult_termination.1 3 4 (by decide) 4 (by decide),
   C10_gf_mult_termination.2 5 7⟩

/-- The padding appended by bytes_to_blocks is always at least 4 bytes. -/
theorem paddingAmount_ge_four (n : Nat) : 4 ≤ paddingAmount n := by
  unfold paddingAmount NB
  omega

/-- Bytes_to_blocks never returns an empty block list: the padded buffer is
at least 4 bytes, so there is at least one word and hence one block. -/
theorem bytes_to_blocks_ne_nil (bytes : List Nat) : bytes_to_blocks bytes ≠ [] := by
  have h4 := paddingAmount_ge_four bytes.length
  have hlen : (bytes_to_blocks bytes).length
      = ((bytes.length + paddingAmount bytes.length) / 4 + 3) / 4 := by
    simp [bytes_to_blocks, wordsToBlocks, paddedBytes]
  intro hnil
  rw [hnil] at hlen
  simp at hlen
  omega

/-- Claim C8: for every key whose byte length is not 16, 24 or 32, both
encrypt and decrypt fail at once with the invalid-key-length panic (the
block list is never empty, so aes runs and hits determine_key_length on the
first block), and the valid lengths map to exactly (4,10), (6,12), (8,14). -/
theorem C8_invalid_key_length (bytes key iv : List Nat) :
    ((key.length ≠ 16 ∧ key.length ≠ 24 ∧ key.length ≠ 32) →
      encrypt bytes key iv = none ∧ decrypt bytes key iv = none) ∧
    (key.length = 16 → determine_key_length key = some (4, 10)) ∧
    (key.length = 24 → determine_key_length key = some (6, 12)) ∧
    (key.length = 32 → determine_key_length key = some (8, 14)) := by
  refine ⟨?_, ?_, ?_, ?_⟩
  · rintro ⟨h16, h24, h32⟩
    have hdet : determine_key_length key = none := by
      unfold determine_key_length
      split <;> simp_all
    have haes : ∀ b : Block, aes b key = none := by
      intro b; simp [aes, hdet]
    have hinv : ∀ b : Block, inv_aes b key = none := by
      intro b; simp [inv_aes, hdet]
    obtain ⟨blk, rest, hb⟩ := List.exists_cons_of_ne_nil (bytes_to_blocks_ne_nil bytes)
    constructor
    · simp [encrypt, hb, haes]
    · simp [decrypt, decryptCore, hb, hinv]
  · intro h; unfold determine_key_length; rw [h]
  · intro h; unfold determine_key_length; rw [h]
  · intro h; unfold determine_key_length; rw [h]

/-- Witness for C8: a 1-byte key makes both directions fail, and the three
valid lengths give the three (nk, nr) pairs. -/
theorem C8_invalid_key_length_witness :
    (encrypt [1] [0] [] = none ∧ decrypt [1] [0] [] = none) ∧
    determine_key_length asciiKey = some (4, 10) ∧
    determine_key_length (List.replicate 24 7) = some (6, 12) ∧
    determine_key_length (List.replicate 32 7) = some (8, 14) :=
  ⟨(C8_invalid_key_length [1] [0] []).1 ⟨by decide, by decide, by decide⟩,
   (C8_invalid_key_length [] asciiKey []).2.1 (by decide),
   (C8_invalid_key_length [] (List.replicate 24 7) []).2.2.1 (by decide),
   (C8_invalid_key_length [] (List.replicate 32 7) []).2.2.2 (by decide)⟩

/-- Claim C7 as amended: decrypt reads the last byte p of the decrypted
block concatenation and returns it with exactly p trailing bytes removed
when p is at most its length; when p exceeds the length, the subtraction
plain.len() - padding underflows and decrypt fails instead of being total. -/
theorem C7_truncation (bytes key iv plain : List Nat)
    (h : decryptCore bytes key iv = some plain) (hne : plain ≠ []) :
    (plain.getD (plain.length - 1) 0 ≤ plain.length →
      decrypt bytes key iv
        = some (plain.take (plain.length - plain.getD (plain.length - 1) 0))) ∧
    (plain.length < plain.getD (plain.length - 1) 0 →
      decrypt bytes key iv = none) := by
  have hlen : ¬ plain.length = 0 := by simpa using hne
  constructor
  · intro hle
    have h2 : ¬ plain.length < plain.getD (plain.length - 1) 0 := by omega
    simp [decrypt, h, hlen, h2]
    exact ⟨hne, by simpa using hle⟩
  · intro hgt
    simp [decrypt, h, hlen, hgt]
    intro
    simpa using hgt

/-- Witness for C7 on the hello ciphertext: the 32 decrypted bytes end in
28, and decrypt removes exactly 28 bytes. -/
theorem C7_truncation_witness :
    decrypt cHello asciiKey zeroIV
      = some (plainHello.take (plainHello.length - plainHello.getD (plainHello.length - 1) 0)) :=
  (C7_truncation cHello asciiKey zeroIV plainHello (by decide) (by decide)).1 (by decide)

/-- Counterexample for C7 as stated: on the 16-byte all-zero ciphertext
with the ASCII key, the decrypted output has 32 bytes but its last byte is
116, so the truncation length underflows and decrypt fails: the truncation
step is not total for every input reaching it. -/
theorem C7_truncation_counterexample :
    decrypt (List.replicate 16 0) asciiKey zeroIV = none ∧
    (decryptCore (List.replicate 16 0) asciiKey zeroIV).map
        (fun p => (p.length, p.getD (p.length - 1) 0))
      = some (32, 116) := by
  refine ⟨by decide, by decide⟩

/-- The initial key-word list has nk words. -/
theorem keyWords_length (key : List Nat) (nk : Nat) : (keyWords key nk).length = nk := by
  simp [keyWords]

/-- Each key-expansion iteration appends exactly one word. -/
theorem expandStep_eq (nk : Nat) (w : List Word) (i : Nat) :
    expandStep nk w i = w ++ [wxor (w.getD (i - nk) zeroWord)
      (if i % nk = 0 then
        wxor (Word.sub_word (Word.rot_word (w.getD (i - 1) zeroWord))) (rcon (i / nk - 1))
       else if 6 < nk ∧ i % nk = 4 then
        Word.sub_word (w.getD (i - 1) zeroWord)
       else w.getD (i - 1) zeroWord)] := rfl

/-- Folding the expansion step adds one word per index processed. -/
theorem expandFoldl_length (nk : Nat) (l : List Nat) :
    ∀ w : List Word, (l.foldl (expandStep nk) w).length = w.length + l.length := by
  induction l with
  | nil => intro w; simp
  | cons a l ih =>
    intro w
    rw [List.foldl_cons, ih]
    rw [expandStep_eq]
    simp
    omega

/-- Folding the expansion step only appends: the start list is a prefix. -/
theorem expandFoldl_prefix (nk : Nat) (l : List Nat) :
    ∀ w : List Word, ∃ t, l.foldl (expandStep nk) w = w ++ t := by
  induction l with
  | nil => intro w; exact ⟨[], by simp⟩
  | cons a l ih =>
    intro w
    obtain ⟨t, ht⟩ := ih (expandStep nk w a)
    refine ⟨(expandStep nk w a).drop w.length ++ t, ?_⟩
    rw [List.foldl_cons, ht, expandStep_eq]
    simp

/-- Words already present when the expansion fold runs are left unchanged. -/
theorem expandFoldl_getD_stable (nk : Nat) (l : List Nat) (w : List Word) (j : Nat)
    (hj : j < w.length) :
    (l.foldl (expandStep nk) w).getD j zeroWord = w.getD j zeroWord := by
  obtain ⟨t, ht⟩ := expandFoldl_prefix nk l w
  rw [ht]
  rw [List.getD_eq_getElem?_getD, List.getD_eq_getElem?_getD, List.getElem?_append, if_pos hj]

/-- A range' list splits at any member index. -/
theorem range'_split (s m i : Nat) (h1 : s ≤ i) (h2 : i < s + m) :
    List.range' s m = List.range' s (i - s) ++ i :: List.range' (i + 1) (s + m - i - 1) := by
  obtain ⟨a, rfl⟩ : ∃ a, i = s + a := ⟨i - s, by omega⟩
  obtain ⟨b, rfl⟩ : ∃ b, m = a + (b + 1) := ⟨m - a - 1, by omega⟩
  have e1 : s + a - s = a := by omega
  have e2 : s + (a + (b + 1)) - (s + a) - 1 = b := by omega
  have e4 : a + (b + 1) = b + 1 + a := by omega
  rw [e1, e2, e4, ← List.range'_append_1 s a (b + 1), List.range'_succ]

/-- Claim C9: for a valid key the schedule has exactly 4*(nr+1) words,
grouped into exactly nr+1 blocks of 4 words, in order. -/
theorem C9_key_schedule_shape (key : List Nat) (nk nr : Nat)
    (hvalid : (nk, nr) = (4, 10) ∨ (nk, nr) = (6, 12) ∨ (nk, nr) = (8, 14)) :
    (keyExpansionWords key nk nr).length = 4 * (nr + 1) ∧
    (key_expansion key nk nr).length = nr + 1 ∧
    ∀ j k : Nat, j < nr + 1 → k < 4 →
      ((key_expansion key nk nr).getD j zeroBlock).words.getD k zeroWord =
        (keyExpansionWords key nk nr).getD (4 * j + k) zeroWord := by
  simp only [Prod.mk.injEq] at hvalid
  have hwl : (keyExpansionWords key nk nr).length = 4 * (nr + 1) := by
    unfold keyExpansionWords
    rw [expandFoldl_length, keyWords_length, List.length_range']
    unfold NB
    omega
  refine ⟨hwl, ?_, ?_⟩
  · simp [key_expansion, wordsToBlocks, hwl]
    omega
  · intro j k hj hk
    unfold key_expansion wordsToBlocks
    have hn : j < ((keyExpansionWords key nk nr).length + 3) / 4 := by rw [hwl]; omega
    simp only [List.getD_eq_getElem?_getD, List.getElem?_map, List.getElem?_range hn,
      Option.map_some', Option.getD_some]
    simp only [List.getElem?_map, List.getElem?_range hk, Option.map_some', Option.getD_some]

/-- Witness for C9 at the concrete ASCII key: 44 words, 11 blocks, and
block 2 word 3 is schedule word 11. -/
theorem C9_key_schedule_shape_witness :
    (keyExpansionWords asciiKey 4 10).length = 4 * (10 + 1) ∧
    (key_expansion asciiKey 4 10).length = 10 + 1 ∧
    ((key_expansion asciiKey 4 10).getD 2 zeroBlock).words.getD 3 zeroWord =
      (keyExpansionWords asciiKey 4 10).getD 11 zeroWord :=
  ⟨(C9_key_schedule_shape asciiKey 4 10 (Or.inl rfl)).1,
   (C9_key_schedule_shape asciiKey 4 10 (Or.inl rfl)).2.1,
   (C9_key_schedule_shape asciiKey 4 10 (Or.inl rfl)).2.2 2 3 (by decide) (by decide)⟩

/-- The word at loop index i of the final key schedule equals the word the
expansion step built from the state W before iteration i, and every
earlier word of the final schedule is already in W. -/
theorem keyExpansionWords_recur (key : List Nat) (nk nr i : Nat)
    (hnk : 1 ≤ nk) (h1 : nk ≤ i) (h2 : i < 4 * (nr + 1)) :
    ∃ W : List Word, W.length = i ∧
      (keyExpansionWords key nk nr).getD i zeroWord =
        wxor (W.getD (i - nk) zeroWord)
          (if i % nk = 0 then
            wxor (Word.sub_word (Word.rot_word (W.getD (i - 1) zeroWord))) (rcon (i / nk - 1))
           else if 6 < nk ∧ i % nk = 4 then
            Word.sub_word (W.getD (i - 1) zeroWord)
           else W.getD (i - 1) zeroWord) ∧
      (∀ j, j < i → (keyExpansionWords key nk nr).getD j zeroWord = W.getD j zeroWord) := by
  set W := (List.range' nk (i - nk)).foldl (expandStep nk) (keyWords key nk) with hWdef
  have hWl : W.length = i := by
    rw [hWdef, expandFoldl_length, keyWords_length, List.length_range']
    omega
  have hsplit : keyExpansionWords key nk nr
      = (List.range' (i + 1) (nk + (NB * (nr + 1) - nk) - i - 1)).foldl (expandStep nk)
          (expandStep nk W i) := by
    unfold keyExpansionWords
    rw [range'_split nk (NB * (nr + 1) - nk) i h1 (by unfold NB; omega),
        List.foldl_append, List.foldl_cons]
  refine ⟨W, hWl, ?_, ?_⟩
  · rw [hsplit,
        expandFoldl_getD_stable nk _ _ i (by rw [expandStep_eq, List.length_append, hWl]; simp),
        expandStep_eq, List.getD_eq_getElem?_getD, List.getElem?_append,
        if_neg (by rw [hWl]; omega)]
    simp [hWl]
  · intro j hj
    rw [hsplit,
        expandFoldl_getD_stable nk _ _ j (by rw [expandStep_eq, List.length_append, hWl]; omega),
        expandStep_eq, List.getD_eq_getElem?_getD,
        List.getElem?_append, if_pos (by rw [hWl]; omega), List.getD_eq_getElem?_getD]

/-- Claim C6: for every valid key (nk words, nr rounds), schedule word i,
for nk ≤ i < 4*(nr+1), is word i-nk xor t, where t is word i-1 rotated,
substituted and xored with (R_CON[i/nk - 1], 0, 0, 0) when i mod nk = 0,
substituted only when nk > 6 and i mod nk = 4, and unchanged otherwise. -/
theorem C6_key_expansion_recurrence (key : List Nat) (nk nr i : Nat)
    (hvalid : (nk, nr) = (4, 10) ∨ (nk, nr) = (6, 12) ∨ (nk, nr) = (8, 14))
    (h1 : nk ≤ i) (h2 : i < 4 * (nr + 1)) :
    (keyExpansionWords key nk nr).getD i zeroWord =
      wxor ((keyExpansionWords key nk nr).getD (i - nk) zeroWord)
        (if i % nk = 0 then
          wxor (Word.sub_word (Word.rot_word ((keyExpansionWords key nk nr).getD (i - 1) zeroWord)))
            (rcon (i / nk - 1))
         else if 6 < nk ∧ i % nk = 4 then
          Word.sub_word ((keyExpansionWords key nk nr).getD (i - 1) zeroWord)
         else (keyExpansionWords key nk nr).getD (i - 1) zeroWord) := by
  simp only [Prod.mk.injEq] at hvalid
  have hnk : 1 ≤ nk := by omega
  obtain ⟨W, hWl, hmain, hstable⟩ := keyExpansionWords_recur key nk nr i hnk h1 h2
  rw [hmain, hstable (i - nk) (by omega), hstable (i - 1) (by omega)]

/-- Witness for C6 at the ASCII key, nk = 4, nr = 10, i = 4. -/
theorem C6_key_expansion_recurrence_witness :
    (keyExpansionWords asciiKey 4 10).getD 4 zeroWord =
      wxor ((keyExpansionWords asciiKey 4 10).getD 0 zeroWord)
        (if 4 % 4 = 0 then
          wxor (Word.sub_word (Word.rot_word ((keyExpansionWords asciiKey 4 10).getD 3 zeroWord)))
            (rcon (4 / 4 - 1))
         else if 6 < 4 ∧ 4 % 4 = 4 then
          Word.sub_word ((keyExpansionWords asciiKey 4 10).getD 3 zeroWord)
         else (keyExpansionWords asciiKey 4 10).getD 3 zeroWord) :=
  C6_key_expansion_recurrence asciiKey 4 10 4 (Or.inl rfl) (by decide) (by decide)

/-- The cipher round body is xor with the indexed round key. -/
theorem cipherRound_eq (w : List Block) :
    cipherRound w = fun s i => Block.bxor s (w.getD i zeroBlock) := rfl

/-- The inverse cipher round body is xor with the indexed round key. -/
theorem invCipherRound_eq (w : List Block) :
    invCipherRound w = fun s i => Block.bxor s (w.getD i zeroBlock) := rfl

/-- Counterexample for C3 as stated: at round count 0 the cipher adds
round key 0 twice (once before the loop and once after), so the result is
not b xor w[0]. -/
theorem C3_counterexample :
    cipher zeroBlock 0 [Block.new (List.replicate 16 1)] ≠
      (([Block.new (List.replicate 16 1)].take (0 + 1)).foldl Block.bxor zeroBlock) := by
  decide

/-- Claim C3 as amended: for every round count nr at least 1 and round-key
list of length at least nr+1, cipher and inv_cipher both return the input
block xored with round keys 0 through nr, because all state steps other
than add_round_key take the block by value and change nothing. -/
theorem C3_cipher_is_xor_of_round_keys (b : Block) (nr : Nat) (w : List Block)
    (hnr : 1 ≤ nr) (hw : nr + 1 ≤ w.length) :
    cipher b nr w = (w.take (nr + 1)).foldl Block.bxor b ∧
    inv_cipher b nr w = (w.take (nr + 1)).foldl Block.bxor b := by
  obtain ⟨m, rfl⟩ : ∃ m, nr = m + 1 := ⟨nr - 1, by omega⟩
  have htake : w.take (m + 1 + 1)
      = (List.range (m + 2)).map (fun i => w.getD i zeroBlock) := by
    apply List.ext_getElem
    · simp [List.length_take]
      omega
    · intro i hi1 hi2
      have hiw : i < w.length := by
        simp [List.length_take] at hi1
        omega
      simp only [List.getElem_take, List.getElem_map, List.getElem_range]
      rw [List.getD_eq_getElem?_getD, List.getElem?_eq_getElem hiw, Option.getD_some]
  have hrange : List.range (m + 2) = 0 :: (List.range' 1 m ++ [m + 1]) := by
    rw [List.range_eq_range', show m + 2 = (m + 1) + 1 from rfl, List.range'_succ,
        List.range'_1_concat]
    simp [Nat.add_comm]
  constructor
  · have hc : cipher b (m + 1) w = Block.bxor
        ((List.range' 1 m).foldl (fun s i => Block.bxor s (w.getD i zeroBlock))
          (Block.bxor b (w.getD 0 zeroBlock)))
        (w.getD (m + 1) zeroBlock) := rfl
    rw [hc, htake, hrange]
    simp only [List.map_cons, List.map_append, List.map_nil, List.foldl_cons,
      List.foldl_append, List.foldl_nil, List.foldl_map]
  · have hic : inv_cipher b (m + 1) w = Block.bxor
        (((List.range' 1 m).reverse).foldl (fun s i => Block.bxor s (w.getD i zeroBlock))
          (Block.bxor b (w.getD (m + 1) zeroBlock)))
        (w.getD 0 zeroBlock) := rfl
    rw [hic, htake, hrange, ← foldl_bxor_reverse, ← List.map_reverse, List.reverse_cons,
        List.reverse_append]
    simp only [List.reverse_cons, List.reverse_nil, List.nil_append, List.cons_append,
      List.map_cons, List.map_append, List.map_nil, List.foldl_cons, List.foldl_append,
      List.foldl_nil, List.foldl_map]

/-- Witness for C3 at a concrete block, round count 2 and three round keys. -/
theorem C3_cipher_is_xor_of_round_keys_witness :
    cipher (Block.new (List.replicate 16 5)) 2
        [Block.new (List.replicate 16 1), Block.new (List.replicate 16 2),
         Block.new (List.replicate 16 3)] =
      (([Block.new (List.replicate 16 1), Block.new (List.replicate 16 2),
         Block.new (List.replicate 16 3)].take (2 + 1)).foldl Block.bxor
        (Block.new (List.replicate 16 5))) ∧
    inv_cipher (Block.new (List.replicate 16 5)) 2
        [Block.new (List.replicate 16 1), Block.new (List.replicate 16 2),
         Block.new (List.replicate 16 3)] =
      (([Block.new (List.replicate 16 1), Block.new (List.replicate 16 2),
         Block.new (List.replicate 16 3)].take (2 + 1)).foldl Block.bxor
        (Block.new (List.replicate 16 5))) :=
  C3_cipher_is_xor_of_round_keys (Block.new (List.replicate 16 5)) 2
    [Block.new (List.replicate 16 1), Block.new (List.replicate 16 2),
     Block.new (List.replicate 16 3)] (by decide) (by decide)

end AES
